import Mathlib

/-!
# Verification of the letschat refresh-token rotation core

Shallow embedding of the auth controller (`signup`, `login`, `refreshToken`,
`logout`) and of the token helpers of `lib/utils.js`.

Modelling conventions:
* Opaque strings (secrets, hashes, emails) are modelled as `Nat`.
* `crypto.createHash("sha256")` is an external library call; the digest is
  modelled as an arbitrary function parameter `hash : Nat → Nat` (hashing is
  deterministic because Lean functions are; no injectivity is assumed, the
  spec's negligible-collision arguments become explicit freshness hypotheses).
* Time (`Date.now()`, `new Date()`) is a `Nat` parameter `now`; a stored
  `expiresAt : Date | undefined` becomes `Option Nat`.
* `crypto.randomBytes(..)` (in `createRefreshToken`) is modelled by passing
  the freshly generated secret as an explicit parameter `fresh`.
* The Mongo store is the sequential state `Store := List UserDoc`;
  `User.findOne({"refreshTokens.tokenHash": h})` is a `List.find?`,
  `user.save()` / `User.updateOne({_id : ..}, ..)` rewrite the first document
  matching the id, `User.updateMany({}, {$pull ..})` maps over all documents.
* Express responses are recorded in `HandlerOut`: status, message, and the
  effect on the refresh cookie and the access ("jwt") cookie.
-/

/-- One element of `user.refreshTokens` (`models/User.js`): the `tokenHash`,
optional `expiresAt` and the `used` flag.  `createdAt` and `meta` are audit
data never read by the controller and are omitted. -/
structure RTRecord where
  tokenHash : Nat
  expiresAt : Option Nat
  used : Bool
  deriving Repr, DecidableEq

/-- A user document: `_id` and the embedded `refreshTokens` collection
(`email`, also a lookup key, is kept; password/profile fields are never read
by the token logic). -/
structure UserDoc where
  id : Nat
  email : Nat
  refreshTokens : List RTRecord
  deriving Repr, DecidableEq

/-- The durable store: the collection of user documents. -/
abbrev Store := List UserDoc

/-- Effect of a handler on one cookie: untouched, cleared, or set to a value
(for the refresh cookie, the new plain secret; for the access cookie, the id
of the user a fresh access token was signed for). -/
inductive CookieEff where
  | unchanged
  | cleared
  | set (v : Nat)
  deriving Repr, DecidableEq

/-- What a handler sends back: HTTP status, JSON message, and both cookie
effects. -/
structure HandlerOut where
  status : Nat
  message : String
  refreshCookie : CookieEff
  accessCookie : CookieEff
  deriving Repr, DecidableEq

/-- `computeExpiry` of the controller: `Date.now() + ms` when `ms` is a
positive finite number, `undefined` otherwise (with `ms : Nat`, non-positive
means `0`). -/
def computeExpiry (now ms : Nat) : Option Nat :=
  if 0 < ms then some (now + ms) else none

/-- `stored.expiresAt && stored.expiresAt < new Date()` of line 172 of the
controller. -/
def RTRecord.isExpired (now : Nat) (rt : RTRecord) : Bool :=
  match rt.expiresAt with
  | some e => decide (e < now)
  | none => false

/-- `User.findOne({ "refreshTokens.tokenHash": tokenHash })`: the first user
document one of whose refresh records carries the hash. -/
def findUserByRefreshHash (store : Store) (h : Nat) : Option UserDoc :=
  store.find? (fun u => u.refreshTokens.any (fun rt => rt.tokenHash == h))

/-- `user.refreshTokens.find((rt) => rt.tokenHash === tokenHash)`. -/
def findStored (u : UserDoc) (h : Nat) : Option RTRecord :=
  u.refreshTokens.find? (fun rt => rt.tokenHash == h)

/-- `User.findOne({ _id })`-style read-back used to state what a handler did
to one user's collection. -/
def getUser (store : Store) (uid : Nat) : Option UserDoc :=
  store.find? (fun u => u.id == uid)

/-- Rewrite the first document matching `p` (the effect of `user.save()` or
`User.updateOne(filter, ..)`, whose filters match a single document). -/
def updateFirst (p : UserDoc → Bool) (f : UserDoc → UserDoc) : Store → Store
  | [] => []
  | u :: us => if p u then f u :: us else u :: updateFirst p f us

/-- `stored.used = true` mutates the record object returned by
`Array.prototype.find`, i.e. the first record with the presented hash. -/
def markUsedFirst (h : Nat) : List RTRecord → List RTRecord
  | [] => []
  | rt :: rts =>
    if rt.tokenHash == h then { rt with used := true } :: rts
    else rt :: markUsedFirst h rts

/-- The `refreshToken` controller (lines 147-211 of the controller file).
`fresh` is the plain secret produced by `createRefreshToken()`; `ms` is
`REFRESH_TOKEN_EXPIRES_MS`; `cookie` is `req.cookies.refresh_token`. -/
def refreshToken (hash : Nat → Nat) (now ms fresh : Nat) (cookie : Option Nat)
    (store : Store) : HandlerOut × Store :=
  match cookie with
  | none => (⟨401, "No refresh token", .unchanged, .unchanged⟩, store)
  | some token =>
    let tokenHash := hash token
    match findUserByRefreshHash store tokenHash with
    | none => (⟨401, "Invalid refresh token", .cleared, .unchanged⟩, store)
    | some user =>
      match findStored user tokenHash with
      | none =>
        -- `User.updateOne({ _id: user._id }, { $set: { refreshTokens: [] } })`
        (⟨401, "Refresh token reuse detected - all sessions revoked", .cleared, .unchanged⟩,
         updateFirst (fun u => u.id == user.id)
           (fun u => { u with refreshTokens := [] }) store)
      | some stored =>
        if stored.isExpired now then
          (⟨401, "Refresh token expired", .cleared, .unchanged⟩,
           updateFirst (fun u => u.id == user.id)
             (fun _ => { user with refreshTokens :=
               (user.refreshTokens.filter (fun rt => rt.tokenHash != tokenHash)) }) store)
        else if stored.used then
          (⟨401, "Refresh token reuse detected - all sessions revoked", .cleared, .unchanged⟩,
           updateFirst (fun u => u.id == user.id)
             (fun u => { u with refreshTokens := [] }) store)
        else
          (⟨200, "Token refreshed", .set fresh, .set user.id⟩,
           updateFirst (fun u => u.id == user.id)
             (fun _ => { user with refreshTokens :=
               (markUsedFirst tokenHash user.refreshTokens ++
                 [⟨hash fresh, computeExpiry now ms, false⟩]) }) store)

/-- The `logout` controller (lines 216-227): `$pull` the presented hash from
every user when a cookie is present, then clear both cookies and respond 200
(`res.json` with no explicit status). -/
def logout (hash : Nat → Nat) (cookie : Option Nat) (store : Store) :
    HandlerOut × Store :=
  let store' :=
    match cookie with
    | none => store
    | some token =>
      store.map (fun u => { u with refreshTokens :=
        (u.refreshTokens.filter (fun rt => rt.tokenHash != hash token)) })
  (⟨200, "Logged out", .cleared, .cleared⟩, store')

/-- Store effect of `signup` once validation passed: if the email already
exists nothing is stored, otherwise a new user document is appended holding
one fresh unused refresh record (lines 50-89). -/
def signupStore (hash : Nat → Nat) (now ms newId email fresh : Nat)
    (store : Store) : Store :=
  if store.any (fun u => u.email == email) then store
  else store ++ [⟨newId, email, [⟨hash fresh, computeExpiry now ms, false⟩]⟩]

/-- Store effect of `login` (lines 108-142): on matching credentials, prune
expired records (`!rt.expiresAt || rt.expiresAt > new Date()`) and append a
fresh unused record; otherwise the store is untouched. `credsOk` stands for
the external `bcrypt.compare` verdict. -/
def loginStore (hash : Nat → Nat) (now ms email fresh : Nat) (credsOk : Bool)
    (store : Store) : Store :=
  match store.find? (fun u => u.email == email) with
  | none => store
  | some user =>
    if credsOk then
      updateFirst (fun u => u.id == user.id)
        (fun _ => { user with refreshTokens :=
          (user.refreshTokens.filter
            (fun rt => match rt.expiresAt with
              | none => true
              | some e => decide (now < e)) ++
          [⟨hash fresh, computeExpiry now ms, false⟩]) }) store
    else store

/-! ## Helper lemmas about the store primitives -/

theorem mem_of_findUserByRefreshHash {store : Store} {h : Nat} {u : UserDoc}
    (hu : findUserByRefreshHash store h = some u) : u ∈ store := by
  unfold findUserByRefreshHash at hu
  exact List.mem_of_find?_eq_some hu

theorem hasRecord_of_findUserByRefreshHash {store : Store} {h : Nat} {u : UserDoc}
    (hu : findUserByRefreshHash store h = some u) :
    u.refreshTokens.any (fun rt => rt.tokenHash == h) = true := by
  unfold findUserByRefreshHash at hu
  have := List.find?_some hu
  simpa using this

theorem getUser_updateFirst (store : Store) (uid : Nat) (f : UserDoc → UserDoc)
    (hid : ∀ x, (x.id == uid) = true → ((f x).id == uid) = true) :
    getUser (updateFirst (fun x => x.id == uid) f store) uid =
      (getUser store uid).map f := by
  induction store with
  | nil => rfl
  | cons y ys ih =>
    unfold updateFirst
    by_cases hy : (y.id == uid) = true
    · rw [if_pos hy]
      unfold getUser
      simp [List.find?_cons, hy, hid y hy]
    · rw [if_neg hy]
      unfold getUser
      have hy' : (y.id == uid) = false := by simpa using hy
      simp only [List.find?_cons, hy']
      exact ih

theorem getUser_isSome_of_mem {store : Store} {u : UserDoc} (hu : u ∈ store) :
    (getUser store u.id).isSome := by
  unfold getUser
  rw [List.find?_isSome]
  exact ⟨u, hu, by simp⟩

theorem markUsedFirst_length (h : Nat) (rts : List RTRecord) :
    (markUsedFirst h rts).length = rts.length := by
  induction rts with
  | nil => rfl
  | cons rt rest ih =>
    unfold markUsedFirst
    by_cases hrt : (rt.tokenHash == h) = true
    · rw [if_pos hrt]
      rfl
    · rw [if_neg hrt]
      simpa using ih

theorem findStored_markUsedFirst {h : Nat} {rts : List RTRecord} {stored : RTRecord}
    (hf : rts.find? (fun rt => rt.tokenHash == h) = some stored) :
    (markUsedFirst h rts).find? (fun rt => rt.tokenHash == h) =
      some { stored with used := true } := by
  induction rts with
  | nil => simp at hf
  | cons rt rest ih =>
    unfold markUsedFirst
    by_cases hrt : (rt.tokenHash == h) = true
    · rw [if_pos hrt]
      simp only [List.find?_cons, hrt] at hf
      simp only [Option.some.injEq] at hf
      subst hf
      simp [List.find?_cons, hrt]
    · rw [if_neg hrt]
      have hrt' : (rt.tokenHash == h) = false := by simpa using hrt
      simp only [List.find?_cons, hrt'] at hf ⊢
      exact ih hf

theorem mem_markUsedFirst {h : Nat} {rts : List RTRecord} {rt : RTRecord}
    (hm : rt ∈ markUsedFirst h rts) :
    ∃ rt₀ ∈ rts, rt.tokenHash = rt₀.tokenHash ∧ (rt.used = rt₀.used ∨ rt.used = true) := by
  induction rts with
  | nil => simp [markUsedFirst] at hm
  | cons r rest ih =>
    unfold markUsedFirst at hm
    by_cases hr : (r.tokenHash == h) = true
    · rw [if_pos hr] at hm
      rcases List.mem_cons.mp hm with h1 | h1
      · exact ⟨r, List.mem_cons_self r rest, by simp [h1]⟩
      · exact ⟨rt, List.mem_cons_of_mem r h1, rfl, Or.inl rfl⟩
    · rw [if_neg hr] at hm
      rcases List.mem_cons.mp hm with h1 | h1
      · exact ⟨r, List.mem_cons_self r rest, by simp [h1]⟩
      · rcases ih h1 with ⟨rt₀, hmem, hh, hu⟩
        exact ⟨rt₀, List.mem_cons_of_mem r hmem, hh, hu⟩

theorem mem_updateFirst {p : UserDoc → Bool} {f : UserDoc → UserDoc} {l : Store}
    {x : UserDoc} (hx : x ∈ updateFirst p f l) :
    x ∈ l ∨ ∃ y ∈ l, x = f y := by
  induction l with
  | nil => simp [updateFirst] at hx
  | cons y ys ih =>
    unfold updateFirst at hx
    by_cases hy : p y = true
    · rw [if_pos hy] at hx
      rcases List.mem_cons.mp hx with h1 | h1
      · exact Or.inr ⟨y, List.mem_cons_self y ys, h1⟩
      · exact Or.inl (List.mem_cons_of_mem y h1)
    · rw [if_neg hy] at hx
      rcases List.mem_cons.mp hx with h1 | h1
      · exact Or.inl (h1 ▸ List.mem_cons_self y ys)
      · rcases ih h1 with h2 | ⟨z, hz, he⟩
        · exact Or.inl (List.mem_cons_of_mem y h2)
        · exact Or.inr ⟨z, List.mem_cons_of_mem y hz, he⟩

theorem findUserByRefreshHash_updateFirst_const (store : Store) (p : UserDoc → Bool)
    (w : UserDoc) (h : Nat)
    (hfresh : ∀ x ∈ store, ∀ rt ∈ x.refreshTokens, rt.tokenHash ≠ h)
    (hsome : store.any p = true)
    (hw : w.refreshTokens.any (fun rt => rt.tokenHash == h) = true) :
    findUserByRefreshHash (updateFirst p (fun _ => w) store) h = some w := by
  induction store with
  | nil => simp at hsome
  | cons y ys ih =>
    unfold updateFirst
    by_cases hy : p y = true
    · rw [if_pos hy]
      unfold findUserByRefreshHash
      simp [List.find?_cons, hw]
    · rw [if_neg hy]
      have hyrec : (y.refreshTokens.any (fun rt => rt.tokenHash == h)) = false := by
        rw [Bool.eq_false_iff]
        intro hcon
        rcases List.any_eq_true.mp hcon with ⟨rt, hrt, hbeq⟩
        exact hfresh y (List.mem_cons_self y ys) rt hrt (by simpa using hbeq)
      unfold findUserByRefreshHash
      simp only [List.find?_cons, hyrec]
      have hsome' : ys.any p = true := by
        have := List.any_eq_true.mp hsome
        rcases this with ⟨x, hx, hpx⟩
        rcases List.mem_cons.mp hx with h1 | h1
        · exact absurd (h1 ▸ hpx) hy
        · exact List.any_eq_true.mpr ⟨x, h1, hpx⟩
      exact ih (fun x hx => hfresh x (List.mem_cons_of_mem y hx)) hsome'

/-! ## Claim theorems -/

/-- C10: whenever `User.findOne({"refreshTokens.tokenHash": h})` returns a
user document, the in-memory `user.refreshTokens.find(..)` on that same
document always finds a record with that hash, so the revoke-all branch at
lines 163-170 of the controller is unreachable. -/
theorem refresh_lookup_always_finds_stored (store : Store) (h : Nat) (u : UserDoc)
    (hu : findUserByRefreshHash store h = some u) :
    (findStored u h).isSome := by
  have hp := hasRecord_of_findUserByRefreshHash hu
  unfold findStored
  rw [List.find?_isSome]
  exact List.any_eq_true.mp hp

theorem refresh_lookup_always_finds_stored_witness :
    (findStored ⟨0, 0, [⟨7, none, false⟩]⟩ 7).isSome :=
  refresh_lookup_always_finds_stored [⟨0, 0, [⟨7, none, false⟩]⟩] 7
    ⟨0, 0, [⟨7, none, false⟩]⟩ (by decide)

/-- C5: a refresh call presenting a secret whose hash matches no stored
record of any user answers 401, clears the refresh cookie, and leaves the
store untouched. -/
theorem refresh_unknown_secret_no_state_change (hash : Nat → Nat)
    (now ms fresh s : Nat) (store : Store)
    (hnone : ∀ u ∈ store, ∀ rt ∈ u.refreshTokens, rt.tokenHash ≠ hash s) :
    (refreshToken hash now ms fresh (some s) store).1.status = 401 ∧
    (refreshToken hash now ms fresh (some s) store).1.refreshCookie = .cleared ∧
    (refreshToken hash now ms fresh (some s) store).2 = store := by
  have h1 : findUserByRefreshHash store (hash s) = none := by
    unfold findUserByRefreshHash
    rw [List.find?_eq_none]
    intro u hu
    rw [Bool.not_eq_true, Bool.eq_false_iff]
    intro hcon
    rcases List.any_eq_true.mp hcon with ⟨rt, hrt, hbeq⟩
    exact hnone u hu rt hrt (by simpa using hbeq)
  simp [refreshToken, h1]

theorem refresh_unknown_secret_no_state_change_witness :
    (refreshToken (fun n => n) 0 1000 9 (some 3) [⟨0, 0, [⟨7, none, false⟩]⟩]).1.status = 401 ∧
    (refreshToken (fun n => n) 0 1000 9 (some 3) [⟨0, 0, [⟨7, none, false⟩]⟩]).1.refreshCookie = .cleared ∧
    (refreshToken (fun n => n) 0 1000 9 (some 3) [⟨0, 0, [⟨7, none, false⟩]⟩]).2 = [⟨0, 0, [⟨7, none, false⟩]⟩] :=
  refresh_unknown_secret_no_state_change (fun n => n) 0 1000 9 3 _ (by decide)

/-- C8: `logout` always answers 200 and clears both the refresh cookie and
the access ("jwt") cookie, whether or not a refresh cookie was presented and
whatever the store contains. -/
theorem logout_clears_both_cookies (hash : Nat → Nat) (cookie : Option Nat)
    (store : Store) :
    (logout hash cookie store).1.status = 200 ∧
    (logout hash cookie store).1.refreshCookie = .cleared ∧
    (logout hash cookie store).1.accessCookie = .cleared := by
  simp [logout]

/-- C2 fails as stated: the controller checks `expiresAt` (line 172) before
`used` (line 183), so presenting a secret whose stored record is `used` but
also expired takes the expired branch: only that record is removed (user 0
keeps record 6), and the response says "Refresh token expired", not the
reuse-detected classification. -/
theorem refresh_used_but_expired_counterexample :
    (findStored ⟨0, 0, [⟨5, some 5, true⟩, ⟨6, none, false⟩]⟩ 5).map RTRecord.used =
      some true ∧
    findUserByRefreshHash [⟨0, 0, [⟨5, some 5, true⟩, ⟨6, none, false⟩]⟩] 5 =
      some ⟨0, 0, [⟨5, some 5, true⟩, ⟨6, none, false⟩]⟩ ∧
    (refreshToken (fun n => n) 10 1000 99 (some 5)
        [⟨0, 0, [⟨5, some 5, true⟩, ⟨6, none, false⟩]⟩]).1.message =
      "Refresh token expired" ∧
    (refreshToken (fun n => n) 10 1000 99 (some 5)
        [⟨0, 0, [⟨5, some 5, true⟩, ⟨6, none, false⟩]⟩]).2 =
      [⟨0, 0, [⟨6, none, false⟩]⟩] := by
  decide

/-- C2 (amended): a refresh call presenting a secret whose stored record has
`used == true` AND is not expired empties that user's whole refresh-token
collection, answers 401 with the reuse-detected message, and clears the
refresh cookie. -/
theorem refresh_reuse_detected_revokes_all (hash : Nat → Nat)
    (now ms fresh s : Nat) (store : Store) (u : UserDoc) (stored : RTRecord)
    (hu : findUserByRefreshHash store (hash s) = some u)
    (hs : findStored u (hash s) = some stored)
    (hexp : stored.isExpired now = false)
    (hused : stored.used = true) :
    (refreshToken hash now ms fresh (some s) store).1 =
      ⟨401, "Refresh token reuse detected - all sessions revoked", .cleared, .unchanged⟩ ∧
    ∃ u', getUser (refreshToken hash now ms fresh (some s) store).2 u.id = some u' ∧
      u'.refreshTokens = [] := by
  have hred : refreshToken hash now ms fresh (some s) store =
      (⟨401, "Refresh token reuse detected - all sessions revoked", .cleared, .unchanged⟩,
       updateFirst (fun x => x.id == u.id)
         (fun x => { x with refreshTokens := [] }) store) := by
    simp [refreshToken, hu, hs, hexp, hused]
  rw [hred]
  refine ⟨rfl, ?_⟩
  have hmem := mem_of_findUserByRefreshHash hu
  have hg := getUser_updateFirst store u.id (fun x => { x with refreshTokens := [] })
    (fun x hx => by simpa using hx)
  rcases Option.isSome_iff_exists.mp (getUser_isSome_of_mem hmem) with ⟨x, hx⟩
  exact ⟨{ x with refreshTokens := [] }, by rw [hg, hx]; rfl, rfl⟩

theorem refresh_reuse_detected_revokes_all_witness :
    (refreshToken (fun n => n) 0 1000 9 (some 5) [⟨0, 0, [⟨5, none, true⟩]⟩]).1 =
      ⟨401, "Refresh token reuse detected - all sessions revoked", .cleared, .unchanged⟩ ∧
    ∃ u', getUser (refreshToken (fun n => n) 0 1000 9 (some 5)
        [⟨0, 0, [⟨5, none, true⟩]⟩]).2 0 = some u' ∧
      u'.refreshTokens = [] :=
  refresh_reuse_detected_revokes_all (fun n => n) 0 1000 9 5
    [⟨0, 0, [⟨5, none, true⟩]⟩] ⟨0, 0, [⟨5, none, true⟩]⟩ ⟨5, none, true⟩
    (by decide) (by decide) (by decide) (by decide)

/-- C4: a refresh call presenting a secret whose stored record exists but is
expired answers 401 with the refresh cookie cleared, removes every record
with that hash from the user's collection, and keeps the others — with no
condition on `used`. -/
theorem refresh_expired_record_removed (hash : Nat → Nat)
    (now ms fresh s : Nat) (store : Store) (u : UserDoc) (stored : RTRecord)
    (hu : findUserByRefreshHash store (hash s) = some u)
    (hs : findStored u (hash s) = some stored)
    (hexp : stored.isExpired now = true) :
    (refreshToken hash now ms fresh (some s) store).1 =
      ⟨401, "Refresh token expired", .cleared, .unchanged⟩ ∧
    ∃ u', getUser (refreshToken hash now ms fresh (some s) store).2 u.id = some u' ∧
      (∀ rt ∈ u'.refreshTokens, rt.tokenHash ≠ hash s) ∧
      (∀ rt ∈ u.refreshTokens, rt.tokenHash ≠ hash s → rt ∈ u'.refreshTokens) := by
  have hred : refreshToken hash now ms fresh (some s) store =
      (⟨401, "Refresh token expired", .cleared, .unchanged⟩,
       updateFirst (fun x => x.id == u.id)
         (fun _ => { u with refreshTokens :=
           (u.refreshTokens.filter (fun rt => rt.tokenHash != hash s)) }) store) := by
    simp [refreshToken, hu, hs, hexp]
  rw [hred]
  refine ⟨rfl, ?_⟩
  have hmem := mem_of_findUserByRefreshHash hu
  have hg := getUser_updateFirst store u.id
    (fun _ => { u with refreshTokens :=
      (u.refreshTokens.filter (fun rt => rt.tokenHash != hash s)) })
    (fun x _ => by simp)
  rcases Option.isSome_iff_exists.mp (getUser_isSome_of_mem hmem) with ⟨x, hx⟩
  refine ⟨_, by rw [hg, hx]; rfl, ?_, ?_⟩
  · intro rt hrt
    have h2 := (List.mem_filter.mp hrt).2
    simpa using h2
  · intro rt hrt hne
    exact List.mem_filter.mpr ⟨hrt, by simpa using hne⟩

theorem refresh_expired_record_removed_witness :
    (refreshToken (fun n => n) 10 1000 9 (some 5)
        [⟨0, 0, [⟨5, some 3, false⟩, ⟨6, none, false⟩]⟩]).1 =
      ⟨401, "Refresh token expired", .cleared, .unchanged⟩ ∧
    ∃ u', getUser (refreshToken (fun n => n) 10 1000 9 (some 5)
        [⟨0, 0, [⟨5, some 3, false⟩, ⟨6, none, false⟩]⟩]).2 0 = some u' ∧
      (∀ rt ∈ u'.refreshTokens, rt.tokenHash ≠ 5) ∧
      (∀ rt ∈ ([⟨5, some 3, false⟩, ⟨6, none, false⟩] : List RTRecord),
        rt.tokenHash ≠ 5 → rt ∈ u'.refreshTokens) :=
  refresh_expired_record_removed (fun n => n) 10 1000 9 5
    [⟨0, 0, [⟨5, some 3, false⟩, ⟨6, none, false⟩]⟩]
    ⟨0, 0, [⟨5, some 3, false⟩, ⟨6, none, false⟩]⟩ ⟨5, some 3, false⟩
    (by decide) (by decide) (by decide)

/-- C3: a refresh call presenting a secret whose stored record is unused and
unexpired marks that record used, appends exactly one new unused record whose
hash is the hash of the fresh secret and whose expiry is `now + ms`, answers
200, sets the refresh cookie to the fresh secret and the access cookie to a
token for the user's id. -/
theorem refresh_valid_rotation (hash : Nat → Nat)
    (now ms fresh s : Nat) (store : Store) (u : UserDoc) (stored : RTRecord)
    (hu : findUserByRefreshHash store (hash s) = some u)
    (hs : findStored u (hash s) = some stored)
    (hexp : stored.isExpired now = false)
    (hused : stored.used = false)
    (hms : 0 < ms) :
    (refreshToken hash now ms fresh (some s) store).1 =
      ⟨200, "Token refreshed", .set fresh, .set u.id⟩ ∧
    ∃ u', getUser (refreshToken hash now ms fresh (some s) store).2 u.id = some u' ∧
      findStored u' (hash s) = some { stored with used := true } ∧
      u'.refreshTokens.length = u.refreshTokens.length + 1 ∧
      u'.refreshTokens.getLast? = some ⟨hash fresh, some (now + ms), false⟩ := by
  have hce : computeExpiry now ms = some (now + ms) := by
    simp [computeExpiry, hms]
  have hred : refreshToken hash now ms fresh (some s) store =
      (⟨200, "Token refreshed", .set fresh, .set u.id⟩,
       updateFirst (fun x => x.id == u.id)
         (fun _ => { u with refreshTokens :=
           (markUsedFirst (hash s) u.refreshTokens ++
             [⟨hash fresh, some (now + ms), false⟩]) }) store) := by
    simp [refreshToken, hu, hs, hexp, hused, hce]
  rw [hred]
  refine ⟨rfl, ?_⟩
  have hmem := mem_of_findUserByRefreshHash hu
  have hg := getUser_updateFirst store u.id
    (fun _ => { u with refreshTokens :=
      (markUsedFirst (hash s) u.refreshTokens ++
        [⟨hash fresh, some (now + ms), false⟩]) })
    (fun x _ => by simp)
  rcases Option.isSome_iff_exists.mp (getUser_isSome_of_mem hmem) with ⟨x, hx⟩
  have hs' : u.refreshTokens.find? (fun rt => rt.tokenHash == hash s) = some stored := hs
  have hmark := findStored_markUsedFirst hs'
  refine ⟨_, by rw [hg, hx]; rfl, ?_, ?_, ?_⟩
  · show (markUsedFirst (hash s) u.refreshTokens ++
      [(⟨hash fresh, some (now + ms), false⟩ : RTRecord)]).find?
        (fun rt => rt.tokenHash == hash s) = some { stored with used := true }
    rw [List.find?_append, hmark]
    rfl
  · simp [markUsedFirst_length]
  · exact List.getLast?_concat _

theorem refresh_valid_rotation_witness :
    (refreshToken (fun n => n) 0 1000 9 (some 5) [⟨0, 0, [⟨5, none, false⟩]⟩]).1 =
      ⟨200, "Token refreshed", .set 9, .set 0⟩ ∧
    ∃ u', getUser (refreshToken (fun n => n) 0 1000 9 (some 5)
        [⟨0, 0, [⟨5, none, false⟩]⟩]).2 0 = some u' ∧
      findStored u' 5 = some ⟨5, none, true⟩ ∧
      u'.refreshTokens.length = 1 + 1 ∧
      u'.refreshTokens.getLast? = some ⟨9, some 1000, false⟩ :=
  refresh_valid_rotation (fun n => n) 0 1000 9 5 [⟨0, 0, [⟨5, none, false⟩]⟩]
    ⟨0, 0, [⟨5, none, false⟩]⟩ ⟨5, none, false⟩
    (by decide) (by decide) (by decide) (by decide) (by decide)

/-- C7: hashing is a function (deterministic), so after `login` stores a
record under `hash fresh`, the refresh lookup pair
(`findOne({"refreshTokens.tokenHash"})` + in-memory `find`) with the same
secret retrieves exactly the record just created: same hash, the computed
expiry, `used == false` — provided the fresh secret's hash does not collide
with any stored record (the spec's negligible-collision assumption). -/
theorem login_roundtrip (hash : Nat → Nat) (now ms email fresh : Nat)
    (store : Store) (u : UserDoc)
    (hfind : store.find? (fun x => x.email == email) = some u)
    (hfresh : ∀ x ∈ store, ∀ rt ∈ x.refreshTokens, rt.tokenHash ≠ hash fresh) :
    ∃ u', findUserByRefreshHash (loginStore hash now ms email fresh true store)
        (hash fresh) = some u' ∧
      u'.id = u.id ∧
      findStored u' (hash fresh) = some ⟨hash fresh, computeExpiry now ms, false⟩ := by
  have hred : loginStore hash now ms email fresh true store =
      updateFirst (fun x => x.id == u.id)
        (fun _ => { u with refreshTokens :=
          (u.refreshTokens.filter
            (fun rt => match rt.expiresAt with
              | none => true
              | some e => decide (now < e)) ++
          [⟨hash fresh, computeExpiry now ms, false⟩]) }) store := by
    simp [loginStore, hfind]
  rw [hred]
  have humem := List.mem_of_find?_eq_some hfind
  have hsome : store.any (fun x => x.id == u.id) = true :=
    List.any_eq_true.mpr ⟨u, humem, by simp⟩
  have hw : ({ u with refreshTokens :=
      (u.refreshTokens.filter
        (fun rt => match rt.expiresAt with
          | none => true
          | some e => decide (now < e)) ++
      [⟨hash fresh, computeExpiry now ms, false⟩]) } : UserDoc).refreshTokens.any
      (fun rt => rt.tokenHash == hash fresh) = true := by
    apply List.any_eq_true.mpr
    exact ⟨⟨hash fresh, computeExpiry now ms, false⟩, by simp, by simp⟩
  refine ⟨_, findUserByRefreshHash_updateFirst_const store _ _ _ hfresh hsome hw,
    by simp, ?_⟩
  show (u.refreshTokens.filter
      (fun rt => match rt.expiresAt with
        | none => true
        | some e => decide (now < e)) ++
    [(⟨hash fresh, computeExpiry now ms, false⟩ : RTRecord)]).find?
      (fun rt => rt.tokenHash == hash fresh) =
    some ⟨hash fresh, computeExpiry now ms, false⟩
  rw [List.find?_append]
  have hnone : (u.refreshTokens.filter
      (fun rt => match rt.expiresAt with
        | none => true
        | some e => decide (now < e))).find?
      (fun rt => rt.tokenHash == hash fresh) = none := by
    rw [List.find?_eq_none]
    intro rt hrt
    have hmem2 : rt ∈ u.refreshTokens := List.mem_of_mem_filter hrt
    simpa using hfresh u humem rt hmem2
  rw [hnone]
  simp [List.find?_cons]

theorem login_roundtrip_witness :
    ∃ u', findUserByRefreshHash (loginStore (fun n => n) 0 1000 7 9 true
        [⟨0, 7, [⟨5, none, true⟩]⟩]) 9 = some u' ∧
      u'.id = 0 ∧
      findStored u' 9 = some ⟨9, computeExpiry 0 1000, false⟩ :=
  login_roundtrip (fun n => n) 0 1000 7 9 [⟨0, 7, [⟨5, none, true⟩]⟩]
    ⟨0, 7, [⟨5, none, true⟩]⟩ (by decide) (by decide)

/-- One invocation of an auth endpoint, carrying the request data and the
secret freshly generated inside the handler (when it generates one). -/
inductive AuthOp where
  | signup (now ms newId email fresh : Nat)
  | login (now ms email fresh : Nat) (credsOk : Bool)
  | refresh (now ms fresh : Nat) (cookie : Option Nat)
  | logout (cookie : Option Nat)
  deriving Repr, DecidableEq

/-- Store effect of one endpoint invocation. -/
def applyOp (hash : Nat → Nat) : AuthOp → Store → Store
  | .signup now ms newId email fresh, s => signupStore hash now ms newId email fresh s
  | .login now ms email fresh credsOk, s => loginStore hash now ms email fresh credsOk s
  | .refresh now ms fresh cookie, s => (refreshToken hash now ms fresh cookie s).2
  | .logout cookie, s => (logout hash cookie s).2

/-- The hash the operation stores for its freshly generated secret, if it
generates one (`createRefreshToken()` in signup, login and refresh). -/
def opFreshHash (hash : Nat → Nat) : AuthOp → Option Nat
  | .signup _ _ _ _ fresh => some (hash fresh)
  | .login _ _ _ fresh _ => some (hash fresh)
  | .refresh _ _ fresh _ => some (hash fresh)
  | .logout _ => none

/-- Every record carrying hash `h` anywhere in the store has `used = true`:
the state in which the `used` flag of that record lineage has already
flipped. -/
def UsedLocked (h : Nat) (store : Store) : Prop :=
  ∀ u ∈ store, ∀ rt ∈ u.refreshTokens, rt.tokenHash = h → rt.used = true

instance (h : Nat) (store : Store) : Decidable (UsedLocked h store) := by
  unfold UsedLocked
  infer_instance

theorem usedLocked_signup (hash : Nat → Nat) (h now ms newId email fresh : Nat)
    (store : Store) (hne : hash fresh ≠ h) (hl : UsedLocked h store) :
    UsedLocked h (signupStore hash now ms newId email fresh store) := by
  intro u hu rt hrt hh
  unfold signupStore at hu
  by_cases hex : store.any (fun x => x.email == email) = true
  · rw [if_pos hex] at hu
    exact hl u hu rt hrt hh
  · rw [if_neg hex] at hu
    rcases List.mem_append.mp hu with h1 | h1
    · exact hl u h1 rt hrt hh
    · have hu2 : u = ⟨newId, email, [⟨hash fresh, computeExpiry now ms, false⟩]⟩ := by
        simpa using h1
      subst hu2
      have hrt2 : rt = ⟨hash fresh, computeExpiry now ms, false⟩ := by
        simpa using hrt
      subst hrt2
      exact absurd hh hne

theorem usedLocked_login (hash : Nat → Nat) (h now ms email fresh : Nat)
    (credsOk : Bool) (store : Store) (hne : hash fresh ≠ h)
    (hl : UsedLocked h store) :
    UsedLocked h (loginStore hash now ms email fresh credsOk store) := by
  intro u hu rt hrt hh
  unfold loginStore at hu
  cases hfind : store.find? (fun x => x.email == email) with
  | none =>
    rw [hfind] at hu
    exact hl u hu rt hrt hh
  | some user =>
    rw [hfind] at hu
    cases credsOk with
    | false =>
      simp only [Bool.false_eq_true, if_false] at hu
      exact hl u hu rt hrt hh
    | true =>
      simp only [if_true] at hu
      have huser : user ∈ store := List.mem_of_find?_eq_some hfind
      rcases mem_updateFirst hu with h1 | ⟨y, _, he⟩
      · exact hl u h1 rt hrt hh
      · subst he
        rcases List.mem_append.mp hrt with h2 | h2
        · exact hl user huser rt (List.mem_of_mem_filter h2) hh
        · have hrt2 : rt = ⟨hash fresh, computeExpiry now ms, false⟩ := by
            simpa using h2
          subst hrt2
          exact absurd hh hne

theorem usedLocked_logout (hash : Nat → Nat) (h : Nat) (cookie : Option Nat)
    (store : Store) (hl : UsedLocked h store) :
    UsedLocked h (logout hash cookie store).2 := by
  intro u hu rt hrt hh
  unfold logout at hu
  cases cookie with
  | none => exact hl u hu rt hrt hh
  | some token =>
    simp only [List.mem_map] at hu
    rcases hu with ⟨y, hy, he⟩
    subst he
    exact hl y hy rt (List.mem_of_mem_filter hrt) hh

theorem usedLocked_refresh (hash : Nat → Nat) (h now ms fresh : Nat)
    (cookie : Option Nat) (store : Store) (hne : hash fresh ≠ h)
    (hl : UsedLocked h store) :
    UsedLocked h (refreshToken hash now ms fresh cookie store).2 := by
  cases cookie with
  | none => exact hl
  | some token =>
    cases hfu : findUserByRefreshHash store (hash token) with
    | none =>
      have hred : (refreshToken hash now ms fresh (some token) store).2 = store := by
        simp [refreshToken, hfu]
      rw [hred]
      exact hl
    | some user =>
      have huser : user ∈ store := mem_of_findUserByRefreshHash hfu
      cases hfs : findStored user (hash token) with
      | none =>
        have hred : (refreshToken hash now ms fresh (some token) store).2 =
            updateFirst (fun x => x.id == user.id)
              (fun x => { x with refreshTokens := [] }) store := by
          simp [refreshToken, hfu, hfs]
        rw [hred]
        intro u hu rt hrt hh
        rcases mem_updateFirst hu with h1 | ⟨y, _, he⟩
        · exact hl u h1 rt hrt hh
        · subst he
          simp at hrt
      | some stored =>
        by_cases hexp : stored.isExpired now = true
        · have hred : (refreshToken hash now ms fresh (some token) store).2 =
              updateFirst (fun x => x.id == user.id)
                (fun _ => { user with refreshTokens :=
                  (user.refreshTokens.filter
                    (fun rt => rt.tokenHash != hash token)) }) store := by
            simp [refreshToken, hfu, hfs, hexp]
          rw [hred]
          intro u hu rt hrt hh
          rcases mem_updateFirst hu with h1 | ⟨y, _, he⟩
          · exact hl u h1 rt hrt hh
          · subst he
            exact hl user huser rt (List.mem_of_mem_filter hrt) hh
        · have hexp' : stored.isExpired now = false := by simpa using hexp
          by_cases hused : stored.used = true
          · have hred : (refreshToken hash now ms fresh (some token) store).2 =
                updateFirst (fun x => x.id == user.id)
                  (fun x => { x with refreshTokens := [] }) store := by
              simp [refreshToken, hfu, hfs, hexp', hused]
            rw [hred]
            intro u hu rt hrt hh
            rcases mem_updateFirst hu with h1 | ⟨y, _, he⟩
            · exact hl u h1 rt hrt hh
            · subst he
              simp at hrt
          · have hused' : stored.used = false := by simpa using hused
            have hred : (refreshToken hash now ms fresh (some token) store).2 =
                updateFirst (fun x => x.id == user.id)
                  (fun _ => { user with refreshTokens :=
                    (markUsedFirst (hash token) user.refreshTokens ++
                      [⟨hash fresh, computeExpiry now ms, false⟩]) }) store := by
              simp [refreshToken, hfu, hfs, hexp', hused']
            rw [hred]
            intro u hu rt hrt hh
            rcases mem_updateFirst hu with h1 | ⟨y, _, he⟩
            · exact hl u h1 rt hrt hh
            · subst he
              rcases List.mem_append.mp hrt with h2 | h2
              · rcases mem_markUsedFirst h2 with ⟨rt₀, hmem0, hhash0, hused0⟩
                have h3 : rt₀.used = true :=
                  hl user huser rt₀ hmem0 (by rw [← hhash0]; exact hh)
                rcases hused0 with h4 | h4
                · rw [h4, h3]
                · exact h4
              · have hrt2 : rt = ⟨hash fresh, computeExpiry now ms, false⟩ := by
                  simpa using h2
                subst hrt2
                exact absurd hh hne

theorem usedLocked_applyOp (hash : Nat → Nat) (h : Nat) (op : AuthOp)
    (store : Store) (hfree : opFreshHash hash op ≠ some h)
    (hl : UsedLocked h store) : UsedLocked h (applyOp hash op store) := by
  cases op with
  | signup now ms newId email fresh =>
    exact usedLocked_signup hash h now ms newId email fresh store
      (fun he => hfree (by simp [opFreshHash, he])) hl
  | login now ms email fresh credsOk =>
    exact usedLocked_login hash h now ms email fresh credsOk store
      (fun he => hfree (by simp [opFreshHash, he])) hl
  | refresh now ms fresh cookie =>
    exact usedLocked_refresh hash h now ms fresh cookie store
      (fun he => hfree (by simp [opFreshHash, he])) hl
  | logout cookie =>
    exact usedLocked_logout hash h cookie store hl

/-- C6: the `used` flag is monotone.  Along any sequence of
signup/login/refresh/logout calls whose freshly generated secrets do not
rehash to `h` (the spec's negligible-collision assumption), once every record
carrying hash `h` is used, that stays so in every later store state: no
operation ever resets `used` to false, hence the flag flips false→true at
most once in a record's lifetime. -/
theorem used_flag_monotone (hash : Nat → Nat) (h : Nat) (trace : List AuthOp) :
    ∀ store : Store, (∀ op ∈ trace, opFreshHash hash op ≠ some h) →
      UsedLocked h store →
      UsedLocked h (trace.foldl (fun s op => applyOp hash op s) store) := by
  induction trace with
  | nil =>
    intro store _ hl
    simpa using hl
  | cons op ops ih =>
    intro store hfree hl
    rw [List.foldl_cons]
    exact ih (applyOp hash op store)
      (fun o ho => hfree o (List.mem_cons_of_mem op ho))
      (usedLocked_applyOp hash h op store (hfree op (List.mem_cons_self op ops)) hl)

theorem used_flag_monotone_witness :
    UsedLocked 5
      (([AuthOp.logout none, AuthOp.refresh 0 1000 3 (some 2)]).foldl
        (fun s op => applyOp (fun n => n) op s) [⟨0, 9, [⟨5, none, true⟩]⟩]) :=
  used_flag_monotone (fun n => n) 5 [AuthOp.logout none, AuthOp.refresh 0 1000 3 (some 2)]
    [⟨0, 9, [⟨5, none, true⟩]⟩] (by decide) (by decide)

/-! ## Token codec

`createAccessToken` lives in `lib/utils.js`; `verifyAccessToken` is imported
by `auth.middleware.js` from `lib/utils.js` but no definition of it exists in
the sources — only its caller.  The verifier below is therefore modelled from
the spec (§4.1).  The HMAC-SHA256 signature of the JWT library is an
abstract function parameter `mac`. -/

/-- Failure modes of token verification (spec §4.1 / §7):
`InvalidTokenError` and `ExpiredTokenError`. -/
inductive TokenError where
  | invalid
  | expired
  deriving Repr, DecidableEq

/-- Payload of a signed access token: the `sub` claim (subject user id) and
the absolute expiry. -/
structure AccessPayload where
  sub : Nat
  exp : Nat
  deriving Repr, DecidableEq

/-- Wire form of an access token: malformed bytes, or a payload together
with a signature. -/
inductive AccessTokenWire where
  | malformed
  | signed (payload : AccessPayload) (sig : Nat)
  deriving Repr, DecidableEq

/-- The claims object successful verification returns, exposing `userId`. -/
structure VerifiedClaims where
  userId : Nat
  deriving Repr, DecidableEq

/-- `createAccessToken` (`lib/utils.js` lines 8-23): `jwt.sign` of the
payload `{sub: String(userId)}` with the configured expiry — a signed
assertion of the subject and the absolute expiry `now + ttl`. -/
def issueAccessToken (mac : AccessPayload → Nat) (userId ttl now : Nat) :
    AccessTokenWire :=
  .signed ⟨userId, now + ttl⟩ (mac ⟨userId, now + ttl⟩)

/-- Modelled from the spec: `verifyAccessToken` (§4.1) is absent from
`lib/utils.js` (the middleware only imports it).  Per the spec it checks the
signature, then the expiry, returns `{userId}`, and consults no store: the
function takes no `Store` argument, so it is pure and stateless. -/
def verifyAccessToken (mac : AccessPayload → Nat) (now : Nat) :
    AccessTokenWire → Except TokenError VerifiedClaims
  | .malformed => .error .invalid
  | .signed p sig =>
    if sig = mac p then
      if p.exp ≤ now then .error .expired
      else .ok ⟨p.sub⟩
    else .error .invalid

/-- C9: for every token, verification either returns the `userId` of the
subject that `issueAccessToken` encoded (round-trip, while unexpired), or
fails with `InvalidTokenError` on malformed input or signature mismatch, or
with `ExpiredTokenError` once the expiry elapsed; every outcome is one of
these three. -/
theorem verifyAccessToken_spec (mac : AccessPayload → Nat) (now : Nat) :
    (∀ userId ttl t0, now < t0 + ttl →
      verifyAccessToken mac now (issueAccessToken mac userId ttl t0) = .ok ⟨userId⟩) ∧
    verifyAccessToken mac now .malformed = .error .invalid ∧
    (∀ p sig, sig ≠ mac p →
      verifyAccessToken mac now (.signed p sig) = .error .invalid) ∧
    (∀ p, p.exp ≤ now →
      verifyAccessToken mac now (.signed p (mac p)) = .error .expired) ∧
    (∀ t, (∃ c, verifyAccessToken mac now t = .ok c) ∨
      verifyAccessToken mac now t = .error .invalid ∨
      verifyAccessToken mac now t = .error .expired) := by
  refine ⟨?_, rfl, ?_, ?_, ?_⟩
  · intro userId ttl t0 hlt
    have hnle : ¬((⟨userId, t0 + ttl⟩ : AccessPayload).exp ≤ now) := by
      show ¬(t0 + ttl ≤ now)
      omega
    simp [issueAccessToken, verifyAccessToken, hnle]
  · intro p sig hne
    simp [verifyAccessToken, hne]
  · intro p hle
    simp [verifyAccessToken, hle]
  · intro t
    cases t with
    | malformed => exact Or.inr (Or.inl rfl)
    | signed p sig =>
      by_cases hsig : sig = mac p
      · by_cases hexp : p.exp ≤ now
        · exact Or.inr (Or.inr (by simp [verifyAccessToken, hsig, hexp]))
        · exact Or.inl ⟨⟨p.sub⟩, by simp [verifyAccessToken, hsig, hexp]⟩
      · exact Or.inr (Or.inl (by simp [verifyAccessToken, hsig]))

theorem verifyAccessToken_spec_witness :
    verifyAccessToken (fun p => p.sub + p.exp) 5
      (issueAccessToken (fun p => p.sub + p.exp) 3 10 0) = .ok ⟨3⟩ :=
  (verifyAccessToken_spec (fun p => p.sub + p.exp) 5).1 3 10 0 (by decide)
